import Mathlib

/-!
Verification of the reviewer-resolution helper module (`.github/scripts/GitHub.py`).

The module's only logic is in `get_reviewers_for_range`, which lists the commits
of a range via `git log`, invokes a maintainer-lookup tool per commit, extracts
bracketed reviewer tokens with the regex `\[(.*?)\]`, strips each token, and
deduplicates while preserving first-occurrence order via `OrderedDict.fromkeys`.
The two external collaborators (the `git` subprocess and the maintainer tool)
are modelled as an environment of oracles returning an exit code and captured
output.  Diagnostics printed with `print` are modelled as an accumulated list of
strings; the Lean functions are total, modelling the fact that none of the
handled failure modes raises an exception.
-/

/-- Python whitespace characters recognised by `str.strip()` (ASCII range). -/
def isPySpace (c : Char) : Bool :=
  c = ' ' || c = '\t' || c = '\n' || c = '\r' || c = '\x0b' || c = '\x0c'

/-- Python `str.strip()`: drop leading and trailing whitespace. -/
def pyStrip (s : String) : String :=
  String.mk (((s.data.dropWhile isPySpace).reverse.dropWhile isPySpace).reverse)

/-- Python line-break characters recognised by `str.splitlines()`. -/
def isPyLineBreak (c : Char) : Bool :=
  c = '\n' || c = '\r' || c = '\x0b' || c = '\x0c' ||
  c = '\x1c' || c = '\x1d' || c = '\x1e' || c = '\x85' ||
  c = '\u2028' || c = '\u2029'

/-- Worker for `str.splitlines()`: `cur` is the current line, reversed.
A line break emits the current line (possibly empty); at the end of input the
current line is emitted only when non-empty, so a trailing break adds no empty
line.  `\r\n` counts as a single break. -/
def pySplitlinesAux (cur : List Char) : List Char → List (List Char)
  | [] => if cur.isEmpty then [] else [cur.reverse]
  | '\r' :: '\n' :: rest => cur.reverse :: pySplitlinesAux [] rest
  | c :: rest =>
      if isPyLineBreak c then cur.reverse :: pySplitlinesAux [] rest
      else pySplitlinesAux (c :: cur) rest

/-- Python `str.splitlines()`. -/
def pySplitlines (s : String) : List String :=
  (pySplitlinesAux [] s.data).map (fun l => String.mk l)

/-- Worker for the regex `\[(.*?)\]` applied after an opening bracket: returns
the content up to the first `]` together with the remaining input, or `none`
when a line break or the end of input comes first (`.` does not match a line
break in Python's default mode, and the lazy `.*?` stops at the first `]`). -/
def scanClose : List Char → Option (List Char × List Char)
  | [] => none
  | c :: cs =>
      if c = ']' then some ([], cs)
      else if c = '\n' then none
      else
        match scanClose cs with
        | some (content, rest) => some (c :: content, rest)
        | none => none

/-- `re.findall` for the pattern `\[(.*?)\]` over a character list: scan left
to right; at each `[`, lazily take the content up to the first `]` on the same
line; when no such `]` exists the engine restarts at the next character.  The
fuel argument only makes the recursion structural: every recursive call both
spends one unit of fuel and strictly shortens the input (`scanClose` returns a
proper suffix of its input), so fuel equal to the input length never runs out. -/
def findBracketedFuel : Nat → List Char → List (List Char)
  | _, [] => []
  | 0, _ :: _ => []
  | fuel + 1, c :: cs =>
      if c = '[' then
        match scanClose cs with
        | some (content, rest) => content :: findBracketedFuel fuel rest
        | none => findBracketedFuel fuel cs
      else findBracketedFuel fuel cs

/-- `re.findall(r"\[(.*?)\]", s)`: the list of bracketed substrings of `s`. -/
def findBracketed (s : String) : List String :=
  (findBracketedFuel s.data.length s.data).map (fun l => String.mk l)

/-- Worker for `OrderedDict.fromkeys`: keep each element the first time it is
seen, skip elements already seen. -/
def dedupAux (seen : List String) : List String → List String
  | [] => []
  | x :: xs => if x ∈ seen then dedupAux seen xs else x :: dedupAux (seen ++ [x]) xs

/-- `list(OrderedDict.fromkeys(l))`: deduplicate keeping the first occurrence
of each element, preserving first-occurrence order. -/
def dedupKeepFirst (l : List String) : List String :=
  dedupAux [] l

/-- The environment of external collaborators consumed by
`get_reviewers_for_range`: the single `git log` invocation for the range
(`RunCmd`, determined by `workspace_path`, `range_start` and `range_end`), and
the per-commit maintainer-tool invocation (`RunPythonScript` on
`maintainer_file_path` with `-g <commit>`).  Each yields an exit code and the
text captured in the `StringIO` output stream. -/
structure Env where
  gitLog : Int × String
  runTool : String → Int × String

/-- The observable outcome of one `get_reviewers_for_range` call: the
diagnostics printed, in order, and the returned list. -/
structure RunOutput where
  diags : List String
  result : List String
deriving DecidableEq

/-- The diagnostic printed when the `git log` invocation fails. -/
def commitLookupErrMsg (ret : Int) (out : String) : String :=
  "::error title=Commit Lookup Error!::Error getting branch commits: [" ++
    toString ret ++ "]: " ++ out

/-- The diagnostic printed when a maintainer-tool invocation fails. -/
def reviewerLookupErrMsg (ret : Int) (out : String) : String :=
  "::error title=Reviewer Lookup Error!::Error calling GetMaintainer.py: [" ++
    toString ret ++ "]: " ++ out

/-- The per-commit debug diagnostic listing that commit's extracted reviewers. -/
def commitReviewerMsg (commit_sha : String) (ms : List String) : String :=
  "::debug title=Commit " ++ String.mk (commit_sha.data.take 7) ++
    " Reviewer(s)::" ++ String.intercalate ", " ms

/-- The final debug diagnostic listing the distinct reviewer set. -/
def totalReviewerMsg (reviewers : List String) : String :=
  "::debug title=Total Reviewer Set::" ++ String.intercalate ", " reviewers

/-- The per-commit loop of `get_reviewers_for_range`, carrying the diagnostics
printed so far and the accumulated `raw_reviewers`.  A failed tool invocation
prints an error diagnostic and returns `[]`; a commit with zero bracketed
matches returns `[]` with no diagnostic; otherwise the matches are appended and
the loop continues.  After the last commit the result is the stripped,
order-preserving deduplication of `raw_reviewers`. -/
def processCommits (env : Env) : List String → List String → List String → RunOutput
  | [], diags, raw =>
      { diags := diags ++ [totalReviewerMsg (dedupKeepFirst (raw.map pyStrip))],
        result := dedupKeepFirst (raw.map pyStrip) }
  | commit_sha :: rest, diags, raw =>
      if (env.runTool commit_sha).1 ≠ 0 then
        { diags := diags ++
            [reviewerLookupErrMsg (env.runTool commit_sha).1 (env.runTool commit_sha).2],
          result := [] }
      else if findBracketed (env.runTool commit_sha).2 = [] then
        { diags := diags, result := [] }
      else
        processCommits env rest
          (diags ++ [commitReviewerMsg commit_sha (findBracketed (env.runTool commit_sha).2)])
          (raw ++ findBracketed (env.runTool commit_sha).2)

/-- `get_reviewers_for_range` with its printed diagnostics made explicit.
When `range_start == range_end` the commit list is `[range_start]` and `git` is
not consulted; otherwise a failing `git log` prints an error diagnostic and
returns `[]`, and a succeeding one yields `splitlines` of its output. -/
def get_reviewers_run (env : Env) (range_start range_end : String) : RunOutput :=
  if range_start = range_end then
    processCommits env [range_start] [] []
  else
    if (env.gitLog).1 ≠ 0 then
      { diags := [commitLookupErrMsg (env.gitLog).1 (env.gitLog).2], result := [] }
    else
      processCommits env (pySplitlines (env.gitLog).2) [] []

/-- The value returned by `get_reviewers_for_range`. -/
def get_reviewers_for_range (env : Env) (range_start range_end : String) : List String :=
  (get_reviewers_run env range_start range_end).result

/-- The commit list `get_reviewers_for_range` iterates over, `none` when the
`git log` invocation fails (restates the range-resolution branch of the code). -/
def commitsFor (env : Env) (range_start range_end : String) : Option (List String) :=
  if range_start = range_end then some [range_start]
  else if (env.gitLog).1 ≠ 0 then none
  else some (pySplitlines (env.gitLog).2)

/-- The concatenated bracketed matches over a commit list, `none` when some
tool invocation fails or yields zero matches (restates the per-commit loop's
accumulation of `raw_reviewers`). -/
def collectMatches (env : Env) : List String → Option (List String)
  | [] => some []
  | c :: cs =>
      if (env.runTool c).1 ≠ 0 then none
      else if findBracketed (env.runTool c).2 = [] then none
      else (collectMatches env cs).map (fun ms => findBracketed (env.runTool c).2 ++ ms)

/-- The `requests` response consumed by `get_pr_sha`: the HTTP status code, the
`reason` phrase, and the `merge_commit_sha` field of the JSON body.
`response.raise_for_status()` raises exactly for client-error (4xx) and
server-error (5xx) status codes. -/
structure HttpResponse where
  status_code : Nat
  reason : String
  merge_commit_sha : String
deriving DecidableEq

/-- `get_pr_sha`: returns the returned SHA together with the diagnostics
printed.  When `raise_for_status` raises (status 400-599) the handler prints an
error diagnostic and returns the empty string; otherwise the `merge_commit_sha`
field is returned after a debug diagnostic. -/
def get_pr_sha (response : HttpResponse) (pr_number : String) : String × List String :=
  if 400 ≤ response.status_code ∧ response.status_code < 600 then
    ("", ["::error title=HTTP Error!::Error getting PR Commit Info: " ++ response.reason])
  else
    (response.merge_commit_sha,
     ["::debug title=PR " ++ pr_number ++ " Commit SHA::" ++ response.merge_commit_sha])

/-- The author-lookup GET response consumed by `add_reviewers_to_pr`: its
status code and the `login` field of the JSON `user` object.  The POST that
follows, and its 422 handling, only produce diagnostics or a fallback comment;
they do not affect the reviewer list that is posted nor `user_names`. -/
structure AddRevEnv where
  authorStatus : Nat
  authorLogin : String

/-- The observable outcome of `add_reviewers_to_pr`: the reviewer list sent to
the requested-reviewers endpoint (`none` when the author lookup failed and no
POST was made), and the final contents of the caller's `user_names` list,
which the function mutates in place. -/
structure AddRevResult where
  posted : Option (List String)
  user_names : List String
deriving DecidableEq

/-- The loop `while pr_author in user_names: user_names.remove(pr_author)`:
repeatedly remove the first occurrence until none is left.  Fuel equal to the
list length suffices, as each `remove` of a present element shortens the list. -/
def removeAllFuel (a : String) : Nat → List String → List String
  | 0, l => l
  | fuel + 1, l => if a ∈ l then removeAllFuel a fuel (l.erase a) else l

/-- All occurrences of `a` removed from `l`, as the `while ... remove` loop
computes it. -/
def removeAll (a : String) (l : List String) : List String :=
  removeAllFuel a l.length l

/-- `add_reviewers_to_pr`: resolve the PR author (stripped `login`); on a
non-200 lookup print a diagnostic and return without posting; otherwise remove
every occurrence of the author from `user_names` and post the result. -/
def add_reviewers_to_pr (env : AddRevEnv) (user_names : List String) : AddRevResult :=
  if env.authorStatus ≠ 200 then
    { posted := none, user_names := user_names }
  else
    { posted := some (removeAll (pyStrip env.authorLogin) user_names),
      user_names := removeAll (pyStrip env.authorLogin) user_names }

/-- Membership in the deduplication worker: an element occurs in the output
exactly when it occurs in the input and has not been seen before. -/
theorem mem_dedupAux (a : String) : ∀ (l seen : List String),
    a ∈ dedupAux seen l ↔ a ∈ l ∧ a ∉ seen
  | [], seen => by simp [dedupAux]
  | x :: xs, seen => by
    rw [dedupAux]
    by_cases hx : x ∈ seen
    · rw [if_pos hx, mem_dedupAux a xs seen]
      by_cases hax : a = x
      · subst hax; simp [hx]
      · simp [hax]
    · rw [if_neg hx]
      by_cases hax : a = x
      · subst hax
        simp [hx]
      · simp only [List.mem_cons, hax, false_or]
        rw [mem_dedupAux a xs (seen ++ [x])]
        simp [hax]

/-- The deduplication worker never outputs an element twice. -/
theorem nodup_dedupAux : ∀ (l seen : List String), (dedupAux seen l).Nodup
  | [], seen => by simp [dedupAux]
  | x :: xs, seen => by
    rw [dedupAux]
    by_cases hx : x ∈ seen
    · rw [if_pos hx]
      exact nodup_dedupAux xs seen
    · rw [if_neg hx]
      refine List.nodup_cons.mpr ⟨?_, nodup_dedupAux xs (seen ++ [x])⟩
      intro hmem
      exact ((mem_dedupAux x xs (seen ++ [x])).mp hmem).2 (by simp)

/-- The deduplication worker preserves the relative order of first
occurrences. -/
theorem dedupAux_indexOf_lt (a b : String) : ∀ (l seen : List String),
    a ∈ dedupAux seen l → b ∈ dedupAux seen l →
    l.indexOf a < l.indexOf b →
    (dedupAux seen l).indexOf a < (dedupAux seen l).indexOf b
  | [], _, ha, _, _ => by simp [dedupAux] at ha
  | x :: xs, seen, ha, hb, hlt => by
    rw [dedupAux] at ha hb ⊢
    by_cases hx : x ∈ seen
    · rw [if_pos hx] at ha hb ⊢
      have hax : a ≠ x := fun h => ((mem_dedupAux a xs seen).mp ha).2 (h ▸ hx)
      have hbx : b ≠ x := fun h => ((mem_dedupAux b xs seen).mp hb).2 (h ▸ hx)
      apply dedupAux_indexOf_lt a b xs seen ha hb
      rw [List.indexOf_cons_ne _ (Ne.symm hax), List.indexOf_cons_ne _ (Ne.symm hbx)] at hlt
      exact Nat.succ_lt_succ_iff.mp hlt
    · rw [if_neg hx] at ha hb ⊢
      by_cases hax : a = x
      · subst hax
        have hba : b ≠ a := by
          intro h
          subst h
          exact lt_irrefl _ hlt
        rw [List.indexOf_cons_self, List.indexOf_cons_ne _ (Ne.symm hba)]
        exact Nat.succ_pos _
      · by_cases hbx : b = x
        · subst hbx
          rw [List.indexOf_cons_self] at hlt
          exact absurd hlt (Nat.not_lt_zero _)
        · have ha2 : a ∈ dedupAux (seen ++ [x]) xs := by
            rcases List.mem_cons.mp ha with h | h
            · exact absurd h hax
            · exact h
          have hb2 : b ∈ dedupAux (seen ++ [x]) xs := by
            rcases List.mem_cons.mp hb with h | h
            · exact absurd h hbx
            · exact h
          rw [List.indexOf_cons_ne _ (Ne.symm hax), List.indexOf_cons_ne _ (Ne.symm hbx)] at hlt
          rw [List.indexOf_cons_ne _ (Ne.symm hax), List.indexOf_cons_ne _ (Ne.symm hbx)]
          apply Nat.succ_lt_succ
          exact dedupAux_indexOf_lt a b xs (seen ++ [x]) ha2 hb2 (Nat.succ_lt_succ_iff.mp hlt)

/-- Membership in `dedupKeepFirst`. -/
theorem mem_dedupKeepFirst (a : String) (l : List String) :
    a ∈ dedupKeepFirst l ↔ a ∈ l := by
  rw [dedupKeepFirst, mem_dedupAux]
  simp

/-- `dedupKeepFirst` has no duplicates. -/
theorem nodup_dedupKeepFirst (l : List String) : (dedupKeepFirst l).Nodup :=
  nodup_dedupAux l []

/-- `dedupKeepFirst` preserves the relative order of first occurrences. -/
theorem dedupKeepFirst_indexOf_lt (a b : String) (l : List String)
    (ha : a ∈ dedupKeepFirst l) (hb : b ∈ dedupKeepFirst l)
    (hlt : l.indexOf a < l.indexOf b) :
    (dedupKeepFirst l).indexOf a < (dedupKeepFirst l).indexOf b :=
  dedupAux_indexOf_lt a b l [] ha hb hlt

/-- The result of the per-commit loop is empty when some tool invocation fails
or yields no matches, and otherwise is the stripped, deduplicated concatenation
of the accumulated and collected matches. -/
theorem processCommits_result (env : Env) : ∀ (cs diags raw : List String),
    (processCommits env cs diags raw).result =
      match collectMatches env cs with
      | none => []
      | some ms => dedupKeepFirst ((raw ++ ms).map pyStrip)
  | [], diags, raw => by simp [processCommits, collectMatches]
  | c :: cs, diags, raw => by
    rw [processCommits, collectMatches]
    by_cases h1 : (env.runTool c).1 ≠ 0
    · rw [if_pos h1, if_pos h1]
    · rw [if_neg h1, if_neg h1]
      by_cases h2 : findBracketed (env.runTool c).2 = []
      · rw [if_pos h2, if_pos h2]
      · rw [if_neg h2, if_neg h2]
        rw [processCommits_result env cs
          (diags ++ [commitReviewerMsg c (findBracketed (env.runTool c).2)])
          (raw ++ findBracketed (env.runTool c).2)]
        cases hcm : collectMatches env cs with
        | none => simp
        | some ms => simp [List.append_assoc]

/-- The per-commit loop consults only the maintainer tool, on exactly the
commits of its list. -/
theorem processCommits_congr (env env2 : Env) : ∀ (cs diags raw : List String),
    (∀ c ∈ cs, env.runTool c = env2.runTool c) →
    processCommits env cs diags raw = processCommits env2 cs diags raw
  | [], diags, raw, _ => by simp [processCommits]
  | c :: cs, diags, raw, h => by
    rw [processCommits, processCommits, h c (List.mem_cons_self c cs)]
    by_cases h1 : (env2.runTool c).1 ≠ 0
    · rw [if_pos h1, if_pos h1]
    · rw [if_neg h1, if_neg h1]
      by_cases h2 : findBracketed (env2.runTool c).2 = []
      · rw [if_pos h2, if_pos h2]
      · rw [if_neg h2, if_neg h2]
        exact processCommits_congr env env2 cs _ _
          (fun d hd => h d (List.mem_cons_of_mem c hd))

/-- If any commit of the list fails its tool lookup or yields zero matches,
the per-commit loop returns an empty result. -/
theorem processCommits_bad (env : Env) (c : String)
    (hbad : (env.runTool c).1 ≠ 0 ∨ findBracketed (env.runTool c).2 = []) :
    ∀ (cs diags raw : List String), c ∈ cs →
    (processCommits env cs diags raw).result = []
  | [], _, _, h => absurd h (List.not_mem_nil c)
  | d :: cs, diags, raw, h => by
    rw [processCommits]
    by_cases h1 : (env.runTool d).1 ≠ 0
    · rw [if_pos h1]
    · rw [if_neg h1]
      by_cases h2 : findBracketed (env.runTool d).2 = []
      · rw [if_pos h2]
      · rw [if_neg h2]
        apply processCommits_bad env c hbad cs
        rcases List.mem_cons.mp h with rfl | hmem
        · push_neg at h1
          rcases hbad with hb | hb
          · exact absurd h1 hb
          · exact absurd hb h2
        · exact hmem

/-- When the range resolution yields a commit list, the whole call is the
per-commit loop over that list. -/
theorem run_eq_processCommits (env : Env) (range_start range_end : String)
    (commits : List String)
    (h : commitsFor env range_start range_end = some commits) :
    get_reviewers_run env range_start range_end = processCommits env commits [] [] := by
  unfold commitsFor at h
  unfold get_reviewers_run
  by_cases hse : range_start = range_end
  · rw [if_pos hse] at h ⊢
    cases h
    rfl
  · rw [if_neg hse] at h ⊢
    by_cases hg : (env.gitLog).1 ≠ 0
    · rw [if_pos hg] at h
      cases h
    · rw [if_neg hg] at h ⊢
      cases h
      rfl

/-- A non-empty result implies the range resolution succeeded. -/
theorem exists_commits_of_result_ne (env : Env) (range_start range_end : String)
    (h : get_reviewers_for_range env range_start range_end ≠ []) :
    ∃ commits, commitsFor env range_start range_end = some commits := by
  by_cases hse : range_start = range_end
  · exact ⟨[range_start], by rw [commitsFor, if_pos hse]⟩
  · by_cases hg : (env.gitLog).1 ≠ 0
    · exfalso
      apply h
      rw [get_reviewers_for_range, get_reviewers_run, if_neg hse, if_pos hg]
    · exact ⟨pySplitlines (env.gitLog).2, by rw [commitsFor, if_neg hse, if_neg hg]⟩

/-- Erasing one occurrence of `a` does not change the sublist of elements
different from `a`. -/
theorem filter_ne_erase (a : String) : ∀ (l : List String),
    (l.erase a).filter (fun x => x ≠ a) = l.filter (fun x => x ≠ a)
  | [] => rfl
  | x :: xs => by
    by_cases hx : x = a
    · subst hx
      rw [List.erase_cons_head]
      simp [List.filter_cons]
    · rw [List.erase_cons_tail]
      · rw [List.filter_cons, List.filter_cons, filter_ne_erase a xs]
      · simp [hx]

/-- The `while ... remove` loop removes exactly the occurrences of `a`,
leaving the other elements in order: it computes `filter (· ≠ a)`. -/
theorem removeAllFuel_eq_filter (a : String) : ∀ (fuel : Nat) (l : List String),
    l.length ≤ fuel → removeAllFuel a fuel l = l.filter (fun x => x ≠ a)
  | 0, l, h => by
    interval_cases hl : l.length
    · rw [List.length_eq_zero] at hl
      subst hl
      rfl
  | fuel + 1, l, h => by
    rw [removeAllFuel]
    by_cases hm : a ∈ l
    · rw [if_pos hm]
      rw [removeAllFuel_eq_filter a fuel (l.erase a) ?_]
      · exact filter_ne_erase a l
      · have := List.length_erase_of_mem hm
        omega
    · rw [if_neg hm]
      symm
      apply List.filter_eq_self.mpr
      intro x hx
      simp only [ne_eq, decide_eq_true_eq]
      intro hxa
      exact hm (hxa ▸ hx)

/-- `removeAll` computes `filter (· ≠ a)`. -/
theorem removeAll_eq_filter (a : String) (l : List String) :
    removeAll a l = l.filter (fun x => x ≠ a) :=
  removeAllFuel_eq_filter a l.length l (Nat.le_refl _)

/-- A range whose commit listing is `A` then `B`, where `A` names reviewers
`alice` and `bob` and `B` names `bob` and `carol`. -/
def envAB : Env :=
  { gitLog := (0, "A\nB"),
    runTool := fun c =>
      if c = "A" then (0, "Reviewed-by: [alice] [bob]")
      else if c = "B" then (0, "Reviewed-by: [bob] [carol]")
      else (1, "") }

/-- An environment whose `git log` invocation fails. -/
def envGitFail : Env :=
  { gitLog := (128, "fatal: bad revision"), runTool := fun _ => (0, "[x]") }

/-- A range `A`, `B` where the tool succeeds on `A` but fails on `B`. -/
def envToolFail : Env :=
  { gitLog := (0, "A\nB"),
    runTool := fun c => if c = "A" then (0, "[alice]") else (3, "Traceback") }

/-- An environment whose tool output contains no bracketed token. -/
def envNoMatch : Env :=
  { gitLog := (0, ""), runTool := fun _ => (0, "no maintainers found") }

/-- C1: over a commit range listing commits A and B, with maintainer-tool
output "Reviewed-by: [alice] [bob]" for A and "Reviewed-by: [bob] [carol]" for
B, both invocations succeeding, the result is exactly
["alice", "bob", "carol"]: all bracketed substrings extracted in commit order,
trimmed, and deduplicated preserving first-occurrence order. -/
theorem C1_range_scenario (env : Env)
    (hgit : env.gitLog = (0, "A\nB"))
    (hA : env.runTool "A" = (0, "Reviewed-by: [alice] [bob]"))
    (hB : env.runTool "B" = (0, "Reviewed-by: [bob] [carol]")) :
    get_reviewers_for_range env "master" "HEAD" = ["alice", "bob", "carol"] := by
  have hcf : commitsFor env "master" "HEAD" = some ["A", "B"] := by
    rw [commitsFor, hgit]
    decide
  rw [get_reviewers_for_range, run_eq_processCommits env "master" "HEAD" ["A", "B"] hcf]
  rw [processCommits_congr env envAB ["A", "B"] [] [] ?_]
  · decide
  · intro c hc
    rcases List.mem_cons.mp hc with rfl | hc
    · exact hA.trans (by decide)
    · rcases List.mem_cons.mp hc with rfl | hc
      · exact hB.trans (by decide)
      · exact absurd hc (List.not_mem_nil c)

theorem C1_witness :
    envAB.gitLog = (0, "A\nB") ∧
    get_reviewers_for_range envAB "master" "HEAD" = ["alice", "bob", "carol"] :=
  ⟨rfl, C1_range_scenario envAB rfl (by decide) (by decide)⟩

/-- C2: whenever the result is non-empty, it is the first-occurrence
deduplication of the trimmed concatenated match stream: it has no duplicates
under exact string equality after trimming, and identifiers appear in order of
their first occurrence across the per-commit match stream. -/
theorem C2_nodup_first_occurrence_order (env : Env) (range_start range_end : String)
    (h : get_reviewers_for_range env range_start range_end ≠ []) :
    ∃ commits raw,
      commitsFor env range_start range_end = some commits ∧
      collectMatches env commits = some raw ∧
      get_reviewers_for_range env range_start range_end =
        dedupKeepFirst (raw.map pyStrip) ∧
      (get_reviewers_for_range env range_start range_end).Nodup ∧
      (∀ a b, a ∈ get_reviewers_for_range env range_start range_end →
        b ∈ get_reviewers_for_range env range_start range_end →
        (raw.map pyStrip).indexOf a < (raw.map pyStrip).indexOf b →
        (get_reviewers_for_range env range_start range_end).indexOf a <
          (get_reviewers_for_range env range_start range_end).indexOf b) := by
  obtain ⟨commits, hcf⟩ := exists_commits_of_result_ne env range_start range_end h
  have hres : get_reviewers_for_range env range_start range_end =
      (processCommits env commits [] []).result := by
    rw [get_reviewers_for_range, run_eq_processCommits env range_start range_end commits hcf]
  rw [processCommits_result env commits [] []] at hres
  cases hcm : collectMatches env commits with
  | none =>
    rw [hcm] at hres
    exact absurd hres h
  | some raw =>
    rw [hcm] at hres
    simp only [List.nil_append] at hres
    refine ⟨commits, raw, hcf, hcm, hres, ?_, ?_⟩
    · rw [hres]
      exact nodup_dedupKeepFirst _
    · intro a b ha hb hlt
      rw [hres] at ha hb ⊢
      exact dedupKeepFirst_indexOf_lt a b _ ha hb hlt

theorem C2_witness :
    get_reviewers_for_range envAB "master" "HEAD" ≠ [] ∧
    (∃ commits raw,
      commitsFor envAB "master" "HEAD" = some commits ∧
      collectMatches envAB commits = some raw ∧
      get_reviewers_for_range envAB "master" "HEAD" =
        dedupKeepFirst (raw.map pyStrip) ∧
      (get_reviewers_for_range envAB "master" "HEAD").Nodup ∧
      (∀ a b, a ∈ get_reviewers_for_range envAB "master" "HEAD" →
        b ∈ get_reviewers_for_range envAB "master" "HEAD" →
        (raw.map pyStrip).indexOf a < (raw.map pyStrip).indexOf b →
        (get_reviewers_for_range envAB "master" "HEAD").indexOf a <
          (get_reviewers_for_range envAB "master" "HEAD").indexOf b)) :=
  ⟨by decide, C2_nodup_first_occurrence_order envAB "master" "HEAD" (by decide)⟩

/-- C3: when range_start equals range_end, exactly the one commit named by that
identifier is processed, and the outcome is the same for any behaviour of the
git collaborator (which is never invoked). -/
theorem C3_single_commit (env env2 : Env) (range_start range_end : String)
    (heq : range_start = range_end) (htool : env.runTool = env2.runTool) :
    commitsFor env range_start range_end = some [range_start] ∧
    get_reviewers_run env range_start range_end =
      get_reviewers_run env2 range_start range_end := by
  subst heq
  constructor
  · rw [commitsFor, if_pos rfl]
  · rw [get_reviewers_run, get_reviewers_run, if_pos rfl, if_pos rfl]
    exact processCommits_congr env env2 [range_start] [] []
      (fun c _ => congrFun htool c)

/-- One tool oracle paired with a healthy and with a broken git collaborator. -/
def envOne : Env :=
  { gitLog := (0, "ignored"), runTool := fun _ => (0, "[dev1] [dev2]") }

/-- Same tool oracle as `envOne`, git collaborator failing. -/
def envOneBadGit : Env :=
  { gitLog := (99, "git exploded"), runTool := fun _ => (0, "[dev1] [dev2]") }

theorem C3_witness :
    commitsFor envOne "abc123" "abc123" = some ["abc123"] ∧
    get_reviewers_run envOne "abc123" "abc123" =
      get_reviewers_run envOneBadGit "abc123" "abc123" :=
  C3_single_commit envOne envOneBadGit "abc123" "abc123" rfl rfl

/-- The failing-git diagnostic embeds the exit code and the captured output. -/
theorem commitLookupErrMsg_parts (ret : Int) (out : String) :
    List.IsInfix (toString ret).data (commitLookupErrMsg ret out).data ∧
    List.IsInfix out.data (commitLookupErrMsg ret out).data := by
  constructor
  · refine ⟨"::error title=Commit Lookup Error!::Error getting branch commits: [".data,
      ("]: " ++ out).data, ?_⟩
    simp [commitLookupErrMsg, String.data_append, List.append_assoc]
  · refine ⟨("::error title=Commit Lookup Error!::Error getting branch commits: [" ++
      toString ret ++ "]: ").data, [], ?_⟩
    simp [commitLookupErrMsg, String.data_append, List.append_assoc]

/-- C4: with distinct range ends and a failing git listing, the call aborts
with an empty result and a single diagnostic message embedding the exit code
and the captured output; the outcome is the same for any behaviour of the
maintainer tool, which is never invoked. -/
theorem C4_git_failure (env : Env) (range_start range_end : String)
    (hne : range_start ≠ range_end) (hfail : (env.gitLog).1 ≠ 0) :
    get_reviewers_run env range_start range_end =
      { diags := [commitLookupErrMsg (env.gitLog).1 (env.gitLog).2], result := [] } ∧
    (∀ env2 : Env, env2.gitLog = env.gitLog →
      get_reviewers_run env2 range_start range_end =
        get_reviewers_run env range_start range_end) ∧
    List.IsInfix (toString (env.gitLog).1).data
      (commitLookupErrMsg (env.gitLog).1 (env.gitLog).2).data ∧
    List.IsInfix ((env.gitLog).2).data
      (commitLookupErrMsg (env.gitLog).1 (env.gitLog).2).data := by
  refine ⟨?_, ?_, (commitLookupErrMsg_parts _ _).1, (commitLookupErrMsg_parts _ _).2⟩
  · rw [get_reviewers_run, if_neg hne, if_pos hfail]
  · intro env2 h2
    have hfail2 : (env2.gitLog).1 ≠ 0 := by
      rw [h2]
      exact hfail
    rw [get_reviewers_run, if_neg hne, if_pos hfail2,
        get_reviewers_run, if_neg hne, if_pos hfail, h2]

theorem C4_witness :
    ("master" : String) ≠ "HEAD" ∧ (envGitFail.gitLog).1 ≠ 0 ∧
    get_reviewers_run envGitFail "master" "HEAD" =
      { diags := [commitLookupErrMsg 128 "fatal: bad revision"], result := [] } :=
  ⟨by decide, by decide, (C4_git_failure envGitFail "master" "HEAD" (by decide) (by decide)).1⟩

/-- C5: if any commit of the processed range has a failing maintainer-tool
invocation or an output with zero bracketed tokens, the overall result is the
empty list - no partial reviewer list from the other commits survives. -/
theorem C5_fail_fast (env : Env) (range_start range_end : String)
    (commits : List String) (c : String)
    (hcf : commitsFor env range_start range_end = some commits)
    (hc : c ∈ commits)
    (hbad : (env.runTool c).1 ≠ 0 ∨ findBracketed (env.runTool c).2 = []) :
    get_reviewers_for_range env range_start range_end = [] := by
  rw [get_reviewers_for_range, run_eq_processCommits env range_start range_end commits hcf]
  exact processCommits_bad env c hbad commits [] [] hc

theorem C5_witness :
    commitsFor envToolFail "master" "HEAD" = some ["A", "B"] ∧
    "B" ∈ ["A", "B"] ∧ (envToolFail.runTool "B").1 ≠ 0 ∧
    get_reviewers_for_range envToolFail "master" "HEAD" = [] :=
  ⟨by decide, by decide, by decide,
   C5_fail_fast envToolFail "master" "HEAD" ["A", "B"] "B" (by decide) (by decide)
     (Or.inl (by decide))⟩

/-- C6 counterexample: for a single-commit range whose maintainer-tool output
contains no bracketed token, the call returns the empty list but prints no
diagnostic at all - the zero-matches failure mode is silent, contradicting the
claim that all three failure modes come with a descriptive diagnostic. -/
theorem C6_counterexample :
    (get_reviewers_run envNoMatch "abc" "abc").result = [] ∧
    (get_reviewers_run envNoMatch "abc" "abc").diags = [] := by decide

/-- When every commit before `c` succeeds with at least one match and `c`'s
tool invocation fails, the loop ends on the tool-failure branch: the last
diagnostic printed is the error message embedding `c`'s exit code and captured
output, and the result is empty. -/
theorem processCommits_first_tool_fail (env : Env) (c : String)
    (hc : (env.runTool c).1 ≠ 0) : ∀ (pre : List String),
    (∀ d ∈ pre, (env.runTool d).1 = 0 ∧ findBracketed (env.runTool d).2 ≠ []) →
    ∀ (rest diags raw : List String),
    ∃ ds, processCommits env (pre ++ c :: rest) diags raw =
      { diags := ds ++ [reviewerLookupErrMsg (env.runTool c).1 (env.runTool c).2],
        result := [] }
  | [], _, rest, diags, raw => by
    refine ⟨diags, ?_⟩
    rw [List.nil_append, processCommits, if_pos hc]
  | d :: pre, h, rest, diags, raw => by
    obtain ⟨h0, hne⟩ := h d (List.mem_cons_self d pre)
    rw [List.cons_append, processCommits, if_neg (fun hh => hh h0), if_neg hne]
    exact processCommits_first_tool_fail env c hc pre
      (fun x hx => h x (List.mem_cons_of_mem d hx)) rest _ _

/-- C6 amended: each failure mode returns an empty sequence without raising
(the function is total); the range-lookup failure emits an error diagnostic,
and so does a failing tool invocation when it is the first failure met - its
error message is the last diagnostic printed - but the zero-bracketed-token
mode emits no diagnostic at all. -/
theorem C6_failure_modes (env : Env) (range_start range_end : String) :
    (range_start ≠ range_end → (env.gitLog).1 ≠ 0 →
      get_reviewers_run env range_start range_end =
        { diags := [commitLookupErrMsg (env.gitLog).1 (env.gitLog).2], result := [] }) ∧
    (∀ commits c, commitsFor env range_start range_end = some commits → c ∈ commits →
      (env.runTool c).1 ≠ 0 ∨ findBracketed (env.runTool c).2 = [] →
      get_reviewers_for_range env range_start range_end = []) ∧
    (∀ pre c rest, commitsFor env range_start range_end = some (pre ++ c :: rest) →
      (∀ d ∈ pre, (env.runTool d).1 = 0 ∧ findBracketed (env.runTool d).2 ≠ []) →
      (env.runTool c).1 ≠ 0 →
      ∃ ds, get_reviewers_run env range_start range_end =
        { diags := ds ++ [reviewerLookupErrMsg (env.runTool c).1 (env.runTool c).2],
          result := [] }) ∧
    (∀ c rest, commitsFor env range_start range_end = some (c :: rest) →
      (env.runTool c).1 = 0 → findBracketed (env.runTool c).2 = [] →
      get_reviewers_run env range_start range_end = { diags := [], result := [] }) := by
  refine ⟨?_, ?_, ?_, ?_⟩
  · intro hne hfail
    rw [get_reviewers_run, if_neg hne, if_pos hfail]
  · intro commits c hcf hc hbad
    rw [get_reviewers_for_range, run_eq_processCommits env range_start range_end commits hcf]
    exact processCommits_bad env c hbad commits [] [] hc
  · intro pre c rest hcf hpre hfail
    rw [run_eq_processCommits env range_start range_end (pre ++ c :: rest) hcf]
    exact processCommits_first_tool_fail env c hfail pre hpre rest [] []
  · intro c rest hcf h0 hempty
    rw [run_eq_processCommits env range_start range_end (c :: rest) hcf]
    rw [processCommits, if_neg (fun h => h h0), if_pos hempty]

theorem C6_witness :
    get_reviewers_run envGitFail "master" "HEAD" =
      { diags := [commitLookupErrMsg 128 "fatal: bad revision"], result := [] } ∧
    get_reviewers_for_range envToolFail "master" "HEAD" = [] ∧
    (∃ ds, get_reviewers_run envToolFail "master" "HEAD" =
      { diags := ds ++ [reviewerLookupErrMsg 3 "Traceback"], result := [] }) ∧
    get_reviewers_run envNoMatch "abc" "abc" = { diags := [], result := [] } :=
  ⟨(C6_failure_modes envGitFail "master" "HEAD").1 (by decide) (by decide),
   (C6_failure_modes envToolFail "master" "HEAD").2.1 ["A", "B"] "B" (by decide) (by decide)
     (Or.inl (by decide)),
   (C6_failure_modes envToolFail "master" "HEAD").2.2.1 ["A"] "B" [] (by decide) (by decide)
     (by decide),
   (C6_failure_modes envNoMatch "abc" "abc").2.2.2 "abc" [] (by decide) (by decide)
     (by decide)⟩

/-- A 304 response: not a 2xx success, yet not an error for
`raise_for_status`. -/
def resp304 : HttpResponse :=
  { status_code := 304, reason := "Not Modified", merge_commit_sha := "deadbeef" }

/-- A 404 response. -/
def resp404 : HttpResponse :=
  { status_code := 404, reason := "Not Found", merge_commit_sha := "unused" }

/-- A 200 response. -/
def resp200 : HttpResponse :=
  { status_code := 200, reason := "OK", merge_commit_sha := "cafe01" }

/-- C7 counterexample: a 304 status is not 2xx, yet `get_pr_sha` does not take
the error branch - `raise_for_status` raises only for 4xx/5xx - and the
returned value is the `merge_commit_sha` field, not the empty string. -/
theorem C7_counterexample :
    ¬(200 ≤ resp304.status_code ∧ resp304.status_code < 300) ∧
    (get_pr_sha resp304 "17").1 = "deadbeef" ∧
    (get_pr_sha resp304 "17").1 ≠ "" := by decide

/-- C7 amended: `get_pr_sha` returns the empty string with an error diagnostic
exactly when the status is an HTTP error status (4xx or 5xx, the statuses
`raise_for_status` raises for); for any other status it returns the response's
`merge_commit_sha` field. -/
theorem C7_pr_sha (response : HttpResponse) (pr_number : String) :
    (400 ≤ response.status_code ∧ response.status_code < 600 →
      get_pr_sha response pr_number =
        ("", ["::error title=HTTP Error!::Error getting PR Commit Info: " ++
          response.reason])) ∧
    (¬(400 ≤ response.status_code ∧ response.status_code < 600) →
      (get_pr_sha response pr_number).1 = response.merge_commit_sha) := by
  constructor
  · intro h
    rw [get_pr_sha, if_pos h]
  · intro h
    rw [get_pr_sha, if_neg h]

theorem C7_witness :
    get_pr_sha resp404 "9" =
      ("", ["::error title=HTTP Error!::Error getting PR Commit Info: Not Found"]) ∧
    (get_pr_sha resp200 "9").1 = "cafe01" :=
  ⟨(C7_pr_sha resp404 "9").1 (by decide), (C7_pr_sha resp200 "9").2 (by decide)⟩

/-- An author lookup succeeding with login `" alice "` (stripped to `alice`). -/
def arEnv : AddRevEnv := { authorStatus := 200, authorLogin := " alice " }

/-- C8: when the author lookup succeeds and the author's username occurs among
the candidate reviewers, every occurrence is removed before the POST: the
posted list is the candidate list with the author filtered out and never
contains the author. -/
theorem C8_author_removed (env : AddRevEnv) (user_names : List String)
    (hok : env.authorStatus = 200)
    (_hmem : pyStrip env.authorLogin ∈ user_names) :
    (add_reviewers_to_pr env user_names).posted =
      some (user_names.filter (fun x => x ≠ pyStrip env.authorLogin)) ∧
    ∀ l, (add_reviewers_to_pr env user_names).posted = some l →
      pyStrip env.authorLogin ∉ l := by
  have hp : (add_reviewers_to_pr env user_names).posted =
      some (user_names.filter (fun x => x ≠ pyStrip env.authorLogin)) := by
    rw [add_reviewers_to_pr, if_neg (fun h => h hok), removeAll_eq_filter]
  refine ⟨hp, ?_⟩
  intro l hl
  rw [hp] at hl
  injection hl with hl
  subst hl
  intro hmem2
  have := (List.mem_filter.mp hmem2).2
  simp at this

theorem C8_witness :
    arEnv.authorStatus = 200 ∧
    pyStrip arEnv.authorLogin ∈ ["bob", "alice", "carol", "alice"] ∧
    (add_reviewers_to_pr arEnv ["bob", "alice", "carol", "alice"]).posted =
      some (["bob", "alice", "carol", "alice"].filter
        (fun x => x ≠ pyStrip arEnv.authorLogin)) :=
  ⟨rfl, by decide,
   (C8_author_removed arEnv ["bob", "alice", "carol", "alice"] rfl (by decide)).1⟩

/-- C9: after a call whose author lookup succeeds, the caller's `user_names`
list holds exactly the original elements minus every occurrence of the
(stripped) author login, in unchanged relative order: it is `filter` of the
original list, a sublist of it, membership of other elements is untouched, and
the author no longer occurs. -/
theorem C9_frame (env : AddRevEnv) (user_names : List String)
    (hok : env.authorStatus = 200) :
    (add_reviewers_to_pr env user_names).user_names =
      user_names.filter (fun x => x ≠ pyStrip env.authorLogin) ∧
    pyStrip env.authorLogin ∉ (add_reviewers_to_pr env user_names).user_names ∧
    (add_reviewers_to_pr env user_names).user_names.Sublist user_names ∧
    (∀ x, x ≠ pyStrip env.authorLogin →
      (x ∈ (add_reviewers_to_pr env user_names).user_names ↔ x ∈ user_names)) := by
  have hu : (add_reviewers_to_pr env user_names).user_names =
      user_names.filter (fun x => x ≠ pyStrip env.authorLogin) := by
    rw [add_reviewers_to_pr, if_neg (fun h => h hok), removeAll_eq_filter]
  refine ⟨hu, ?_, ?_, ?_⟩
  · rw [hu]
    intro hmem
    have := (List.mem_filter.mp hmem).2
    simp at this
  · rw [hu]
    exact List.filter_sublist _
  · intro x hx
    rw [hu]
    simp [List.mem_filter, hx]

theorem C9_witness :
    arEnv.authorStatus = 200 ∧
    (add_reviewers_to_pr arEnv ["bob", "alice", "carol", "alice"]).user_names =
      ["bob", "alice", "carol", "alice"].filter
        (fun x => x ≠ pyStrip arEnv.authorLogin) :=
  ⟨rfl, (C9_frame arEnv ["bob", "alice", "carol", "alice"] rfl).1⟩

/-- A single-commit range whose tool output holds an empty bracketed token and
a whitespace-only bracketed token. -/
def envEmptyTok : Env :=
  { gitLog := (0, ""), runTool := fun _ => (0, "Reviewed-by: [] [ ]") }

/-- A single-commit range whose tool output brackets a lone newline - a
whitespace-only token that the regex cannot match, `.` excluding line breaks. -/
def envNlTok : Env :=
  { gitLog := (0, ""), runTool := fun _ => (0, "Reviewed-by: [\n]") }

/-- C10 counterexample: a bracketed token enclosing only whitespace need not
count as a match: a newline is whitespace for `str.strip`, yet `.` in the
pattern does not match a line break, so for the output "Reviewed-by: [\n]" the
match list is empty and the zero-matches failure branch is taken. -/
theorem C10_counterexample :
    (∀ ch ∈ ['\n'], isPySpace ch = true) ∧
    findBracketed "Reviewed-by: [\n]" = [] ∧
    get_reviewers_for_range envNlTok "abc" "abc" = [] := by decide

/-- When the scanned text starts with the closing bracket's content - no
newline before the `]` - the lazy scan succeeds. -/
theorem scanClose_isSome (post : List Char) : ∀ (mid : List Char),
    (∀ ch ∈ mid, ch ≠ '\n') → (scanClose (mid ++ ']' :: post)).isSome = true
  | [], _ => by
    rw [List.nil_append, scanClose, if_pos rfl]
    rfl
  | c :: mid, h => by
    rw [List.cons_append, scanClose]
    by_cases hc : c = ']'
    · rw [if_pos hc]
      rfl
    · rw [if_neg hc, if_neg (h c (List.mem_cons_self c mid))]
      have ih := scanClose_isSome post mid (fun x hx => h x (List.mem_cons_of_mem c hx))
      cases hs : scanClose (mid ++ ']' :: post) with
      | none =>
        rw [hs] at ih
        simp at ih
      | some p =>
        obtain ⟨content, rest⟩ := p
        rfl

/-- Any text containing a bracketed segment free of newlines yields at least
one match: the scanner reaches every opening bracket not already inside a
match, and a match consuming this segment's `]` is itself non-empty evidence. -/
theorem findBracketedFuel_ne_nil (mid post : List Char)
    (hmid : ∀ ch ∈ mid, ch ≠ '\n') : ∀ (pre : List Char) (fuel : Nat),
    (pre ++ '[' :: (mid ++ ']' :: post)).length ≤ fuel →
    findBracketedFuel fuel (pre ++ '[' :: (mid ++ ']' :: post)) ≠ []
  | [], fuel, hf => by
    cases fuel with
    | zero => simp at hf
    | succ f =>
      rw [List.nil_append, findBracketedFuel, if_pos rfl]
      have hs := scanClose_isSome post mid hmid
      cases hsc : scanClose (mid ++ ']' :: post) with
      | none =>
        rw [hsc] at hs
        simp at hs
      | some p =>
        obtain ⟨content, rest⟩ := p
        simp
  | p :: pre, fuel, hf => by
    cases fuel with
    | zero => simp at hf
    | succ f =>
      have hf2 : (pre ++ '[' :: (mid ++ ']' :: post)).length ≤ f := by
        rw [List.cons_append, List.length_cons] at hf
        omega
      rw [List.cons_append, findBracketedFuel]
      by_cases hp : p = '['
      · rw [if_pos hp]
        cases hsc : scanClose (pre ++ '[' :: (mid ++ ']' :: post)) with
        | none => exact findBracketedFuel_ne_nil mid post hmid pre f hf2
        | some pr =>
          obtain ⟨content, rest⟩ := pr
          simp
      · rw [if_neg hp]
        exact findBracketedFuel_ne_nil mid post hmid pre f hf2

/-- A string of whitespace characters trims to the empty string. -/
theorem pyStrip_all_space (w : List Char) (hw : ∀ ch ∈ w, isPySpace ch = true) :
    pyStrip (String.mk w) = "" := by
  rw [pyStrip]
  have hd : w.dropWhile isPySpace = [] := by
    rw [List.dropWhile_eq_nil_iff]
    exact fun x hx => hw x hx
  simp [hd]

/-- C10 amended: a bracketed token that is empty or encloses only whitespace
containing no line break counts as a successful match: for any commit of the
processed range whose tool output contains such a token, the match list is
non-empty, so the zero-matches failure branch is not taken, and the token
trims to the empty string - which can appear as a reviewer identifier in the
returned sequence, as the concrete "Reviewed-by: [] [ ]" run returning [""]
shows.  (A whitespace-only token containing a line break does not match, since
the pattern's `.` excludes line breaks.) -/
theorem C10_bracket_token (env : Env) (range_start range_end : String)
    (commits : List String) (c : String) (pre w post : List Char)
    (_hcf : commitsFor env range_start range_end = some commits)
    (_hc : c ∈ commits)
    (hout : (env.runTool c).2.data = pre ++ '[' :: (w ++ ']' :: post))
    (hw : ∀ ch ∈ w, isPySpace ch = true ∧ ch ≠ '\n') :
    (findBracketed (env.runTool c).2 ≠ [] ∧ pyStrip (String.mk w) = "") ∧
    (get_reviewers_for_range envEmptyTok "abc" "abc" = [""] ∧
     "" ∈ get_reviewers_for_range envEmptyTok "abc" "abc") := by
  refine ⟨⟨?_, pyStrip_all_space w (fun ch hch => (hw ch hch).1)⟩, by decide, by decide⟩
  rw [findBracketed, hout]
  intro hnil
  rw [List.map_eq_nil_iff] at hnil
  exact findBracketedFuel_ne_nil w post (fun ch hch => (hw ch hch).2) pre
    (pre ++ '[' :: (w ++ ']' :: post)).length (Nat.le_refl _) hnil

theorem C10_witness :
    commitsFor envEmptyTok "abc" "abc" = some ["abc"] ∧
    "abc" ∈ ["abc"] ∧
    (envEmptyTok.runTool "abc").2.data =
      "Reviewed-by: ".data ++ '[' :: (([] : List Char) ++ ']' :: " [ ]".data) ∧
    ((findBracketed (envEmptyTok.runTool "abc").2 ≠ [] ∧
      pyStrip (String.mk ([] : List Char)) = "") ∧
     (get_reviewers_for_range envEmptyTok "abc" "abc" = [""] ∧
      "" ∈ get_reviewers_for_range envEmptyTok "abc" "abc")) :=
  ⟨by decide, by decide, by decide,
   C10_bracket_token envEmptyTok "abc" "abc" ["abc"] "abc"
     ("Reviewed-by: ".data) [] (" [ ]".data) (by decide) (by decide) (by decide)
     (by decide)⟩
